import Mathlib

/-!
Verification development for `stm_enc_reader.py`: a streaming packet decoder
and file-rotation engine for a 15-byte-record telemetry stream.

Bytes are modelled as natural numbers (values < 256 where relevant), byte
strings as `List Nat`.  Each definition below is a direct shallow embedding of
the corresponding Python code in `stm_enc_reader.py`.
-/

namespace StmEnc

/-- `RECV_BUFLEN = 128*15` from the module constants. -/
def RECV_BUFLEN : Nat := 128 * 15

/-- `FILE_LEN = 1000000` from the module constants. -/
def FILE_LEN : Nat := 1000000

/-- `VERSION = 2021042901` from the module constants. -/
def VERSION : Nat := 2021042901

/-! ## Carry-over absorb step (the "analyzer" section of `StmEncReader.fill`)

```
tmpd = self._carry_over + data
tmpr = len(tmpd) % 15
self._carry_over = tmpd[tmpr:]
pnum = int(len(tmpd)/15)
for i in range(pnum):
    packet = tmpd[15*i:15*(i+1)]
    ...
```
-/

/-- The packets extracted and the new carry-over, exactly as computed by the
analyzer section of `fill`: `tmpd = carry + data`, `tmpr = len(tmpd) % 15`,
new carry-over `tmpd[tmpr:]` (i.e. dropping the first `tmpr` bytes), and
`pnum = len(tmpd) / 15` packets `tmpd[15*i : 15*(i+1)]`. -/
def absorbCarry (carry data : List Nat) : List (List Nat) × List Nat :=
  let tmpd := carry ++ data
  let tmpr := tmpd.length % 15
  let carry' := tmpd.drop tmpr
  let pnum := tmpd.length / 15
  ((List.range pnum).map (fun i => ((tmpd.drop (15 * i)).take 15)), carry')

/-- Python `int.from_bytes(bs, byteorder little)`: little-endian unsigned. -/
def fromBytesLE (bs : List Nat) : Nat :=
  bs.foldr (fun b acc => b + 256 * acc) 0

/-- The decoder state fields `ts_latest` and `state_latest` of `StmEncReader`. -/
structure DecState where
  ts_latest : Nat
  state_latest : Nat
  deriving DecidableEq

/-- One iteration of the packet loop in `fill`: header is `packet[0]`,
`ts_lsb` is bytes 1..4 little-endian, `ts_msb` is bytes 5..8,
`timestamp = ts_lsb + (ts_msb << 32)`, `status` is bytes 9..12,
footer is `packet[14]`; the state is overwritten only when
`header == 0x99 and footer == 0x66`. -/
def decodeStep (st : DecState) (packet : List Nat) : DecState :=
  let header := packet.getD 0 0
  let ts_lsb := fromBytesLE ((packet.drop 1).take 4)
  let ts_msb := fromBytesLE ((packet.drop 5).take 4)
  let timestamp := ts_lsb + (ts_msb <<< 32)
  let status := fromBytesLE ((packet.drop 9).take 4)
  let footer := packet.getD 14 0
  if header = 0x99 ∧ footer = 0x66 then
    { ts_latest := timestamp, state_latest := status }
  else
    st

/-- The full analyzer section of one `fill` call, acting on the decoder state
and the carry-over buffer for one incoming chunk. -/
def analyzerStep (s : DecState × List Nat) (data : List Nat) : DecState × List Nat :=
  let (packets, carry') := absorbCarry s.2 data
  (packets.foldl decodeStep s.1, carry')

/-- Feeding a list of chunks through successive `fill` analyzer passes,
starting from `ts_latest = 0`, `state_latest = 0` and an empty carry-over
(the `__init__` values). -/
def feedAll (chunks : List (List Nat)) : DecState × List Nat :=
  chunks.foldl analyzerStep (⟨0, 0⟩, [])

/-- The example record of the spec: `\x99` + 12 zero bytes + `\x00\x66`. -/
def examplePacket : List Nat := [0x99] ++ List.replicate 12 0 ++ [0x00, 0x66]

/-- A well-formed encoder record with timestamp 1. -/
def tsOnePacket : List Nat :=
  [0x99, 1, 0, 0, 0, 0, 0, 0, 0, 0, 0, 0, 0, 0, 0x66]

/-- C1: Chunk-boundary independence of re-synchronization fails on the code.
Absorbing the spec's example record split as `[:7]` then `[7:]` emits no
packet at all and ends with an empty carry-over, while absorbing the same 15
bytes in one call emits one packet and ends with a 15-byte carry-over: the
carry-over update `tmpd[tmpr:]` keeps the wrong end of the buffer, so the
record sequence depends on the chunk boundaries and the example's expected
one-record/empty-remainder outcome does not occur. -/
theorem resync_chunk_independence_fails :
    (absorbCarry [] (examplePacket.take 7)).1 = [] ∧
    (absorbCarry [] (examplePacket.take 7)).2 = [] ∧
    (absorbCarry (absorbCarry [] (examplePacket.take 7)).2 (examplePacket.drop 7)).1 = [] ∧
    (absorbCarry (absorbCarry [] (examplePacket.take 7)).2 (examplePacket.drop 7)).2 = [] ∧
    (absorbCarry [] examplePacket).1 = [examplePacket] ∧
    (absorbCarry [] examplePacket).2 = examplePacket ∧
    (absorbCarry [] examplePacket).1 ≠
      (absorbCarry (absorbCarry [] (examplePacket.take 7)).2 (examplePacket.drop 7)).1 := by
  decide

/-- C2: The conservation law fails on the code.  With an empty prior remainder
and the 15-byte example chunk, the call emits 1 packet but retains all 15
bytes as the new remainder, so
`len(before) + len(chunk) = 15 ≠ 30 = 15 * records + len(after)`. -/
theorem absorb_conservation_fails :
    (absorbCarry [] examplePacket).1.length = 1 ∧
    (absorbCarry [] examplePacket).2.length = 15 ∧
    ([] : List Nat).length + examplePacket.length ≠
      15 * (absorbCarry [] examplePacket).1.length +
        (absorbCarry [] examplePacket).2.length := by
  decide

/-- C3: The absorb semantics fail on the code.  With an empty prior remainder
and a 15-byte chunk (`L = 15`, so `L mod 15 = 0`), the new remainder is the
whole 15-byte buffer rather than the trailing 0 bytes, and its length is not
strictly less than 15. -/
theorem absorb_remainder_fails :
    (absorbCarry [] examplePacket).2.length = 15 ∧
    ¬ (absorbCarry [] examplePacket).2.length < 15 ∧
    (absorbCarry [] examplePacket).2 ≠ examplePacket.drop 15 := by
  decide

/-- C5: Latest-state monotonicity under well-formed input fails on the code.
Feeding the single well-formed encoder record with timestamp 1, fragmented as
`[:7]` then `[7:]`, leaves `ts_latest = 0` (both fragments are discarded by
the carry-over bug), while feeding the same record as one chunk yields
`ts_latest = 1`. -/
theorem latest_state_fragmentation_fails :
    (feedAll [tsOnePacket.take 7, tsOnePacket.drop 7]).1.ts_latest = 0 ∧
    (feedAll [tsOnePacket]).1.ts_latest = 1 ∧
    (feedAll [tsOnePacket.take 7, tsOnePacket.drop 7]).1.ts_latest ≠ 1 := by
  decide

/-! ## Record classification (C6) -/

/-- C6: Classification of a single 15-byte record, as performed by the packet
loop of `fill`, is a deterministic pure function of the bytes: when byte 0 is
`0x99` and byte 14 is `0x66` the state is overwritten with the combined
timestamp `ts_lsb + (ts_msb << 32)` — `ts_lsb` the little-endian value of
bytes 1–4, `ts_msb` that of bytes 5–8 — and the little-endian status of bytes
9–12; for every other header/footer combination the state is returned
unchanged (no error). -/
theorem fill_classification
    (b0 b1 b2 b3 b4 b5 b6 b7 b8 b9 b10 b11 b12 b13 b14 : Nat) (st : DecState) :
    (b0 = 0x99 ∧ b14 = 0x66 →
      decodeStep st [b0, b1, b2, b3, b4, b5, b6, b7, b8, b9, b10, b11, b12, b13, b14] =
        { ts_latest := (b1 + b2 * 256 + b3 * 256 ^ 2 + b4 * 256 ^ 3) +
            (b5 + b6 * 256 + b7 * 256 ^ 2 + b8 * 256 ^ 3) * 2 ^ 32,
          state_latest := b9 + b10 * 256 + b11 * 256 ^ 2 + b12 * 256 ^ 3 }) ∧
    (¬ (b0 = 0x99 ∧ b14 = 0x66) →
      decodeStep st [b0, b1, b2, b3, b4, b5, b6, b7, b8, b9, b10, b11, b12, b13, b14] = st) := by
  constructor
  · intro h
    show (if b0 = 0x99 ∧ b14 = 0x66 then
        (⟨fromBytesLE [b1, b2, b3, b4] + fromBytesLE [b5, b6, b7, b8] <<< 32,
          fromBytesLE [b9, b10, b11, b12]⟩ : DecState)
      else st) = _
    rw [if_pos h]
    simp only [fromBytesLE, List.foldr, Nat.shiftLeft_eq, DecState.mk.injEq]
    constructor <;> ring
  · intro h
    show (if b0 = 0x99 ∧ b14 = 0x66 then
        (⟨fromBytesLE [b1, b2, b3, b4] + fromBytesLE [b5, b6, b7, b8] <<< 32,
          fromBytesLE [b9, b10, b11, b12]⟩ : DecState)
      else st) = st
    rw [if_neg h]

/-- Witness for `fill_classification`: an encoder record with
`ts_lsb = 1`, `ts_msb = 2`, status `3` updates the state, and a record with
header `1` leaves the state untouched. -/
theorem fill_classification_witness :
    (decodeStep ⟨5, 6⟩ [0x99, 1, 0, 0, 0, 2, 0, 0, 0, 3, 0, 0, 0, 0, 0x66] =
      { ts_latest := (1 + 0 * 256 + 0 * 256 ^ 2 + 0 * 256 ^ 3) +
          (2 + 0 * 256 + 0 * 256 ^ 2 + 0 * 256 ^ 3) * 2 ^ 32,
        state_latest := 3 + 0 * 256 + 0 * 256 ^ 2 + 0 * 256 ^ 3 }) ∧
    (decodeStep ⟨5, 6⟩ [1, 1, 0, 0, 0, 2, 0, 0, 0, 3, 0, 0, 0, 0, 0x66] = ⟨5, 6⟩) :=
  ⟨(fill_classification 0x99 1 0 0 0 2 0 0 0 3 0 0 0 0 0x66 ⟨5, 6⟩).1 (by decide),
   (fill_classification 1 1 0 0 0 2 0 0 0 3 0 0 0 0 0x66 ⟨5, 6⟩).2 (by decide)⟩

/-! ## File header (`StmEncReader._write_header`, C8) -/

/-- The `HEADER_TXT` module constant. -/
def HEADER_TXT : String :=
  "Stimulator encoder data\nPacket format: [HEADER 1][TS_LSB 4][TS_MSB 4][DATA 5][FOOTER 1]\n\tENC : HEADER=0x99 FOOTER=0x66\n\t\tDATA=[SEC][MIN][HOUR][DAY 2]\n\tIRIG: HEADER=0x55 FOOTER=0xAA\n\t\tDATA=[STATE 4][0x00]\n"

/-- The bytes of `HEADER_TXT` (pure ASCII). -/
def headerTxtBytes : List Nat := HEADER_TXT.data.map Char.toNat

/-- Python `n.to_bytes(len, little, unsigned)`: always `len` bytes here; at
every call site below the argument fits (`to_bytes` would otherwise raise). -/
def toBytesLE (len n : Nat) : List Nat :=
  (List.range len).map (fun i => n / 256 ^ i % 256)

/-- The unpadded header of `_write_header`: the 4 ASCII bytes `256\n`, the
4-byte version, 4-byte Unix seconds, 4-byte microseconds, the static text. -/
def headerPrefix (txt : List Nat) (sec micro : Nat) : List Nat :=
  [0x32, 0x35, 0x36, 0x0A] ++ toBytesLE 4 VERSION ++
    toBytesLE 4 sec ++ toBytesLE 4 micro ++ txt

/-- The header composition of `_write_header`: the unpadded header, then the
`res = 256 - len(header)` check (`HEADER TOO LONG` when negative) and space
padding to 256 bytes. -/
def buildHeader (txt : List Nat) (sec micro : Nat) : Except String (List Nat) :=
  if (headerPrefix txt sec micro).length ≤ 256 then
    Except.ok (headerPrefix txt sec micro ++
      List.replicate (256 - (headerPrefix txt sec micro).length) 0x20)
  else
    Except.error "HEADER TOO LONG"

lemma toBytesLE_length (len n : Nat) : (toBytesLE len n).length = len := by
  simp [toBytesLE]

lemma headerPrefix_length (txt : List Nat) (sec micro : Nat) :
    (headerPrefix txt sec micro).length = 16 + txt.length := by
  simp [headerPrefix, toBytesLE_length]
  omega

set_option maxRecDepth 4096 in
lemma headerTxtBytes_length : headerTxtBytes.length = 204 := by decide

/-- C8: For every construction time (seconds fitting 4 bytes, microseconds
below 10^6) the composed file header is exactly 256 bytes, and — uniformly in
the static text — construction fails (with no bytes written) exactly when the
16 bytes of fixed fields plus the static text exceed 256 bytes. -/
theorem write_header_size (sec micro : Nat)
    (hsec : sec < 2 ^ 32) (hmicro : micro < 1000000) :
    (∃ h, buildHeader headerTxtBytes sec micro = Except.ok h ∧ h.length = 256) ∧
    (∀ txt : List Nat,
      (∃ e, buildHeader txt sec micro = Except.error e) ↔ 256 < 16 + txt.length) := by
  constructor
  · have hlen := headerPrefix_length headerTxtBytes sec micro
    rw [headerTxtBytes_length] at hlen
    have hok : buildHeader headerTxtBytes sec micro =
        Except.ok (headerPrefix headerTxtBytes sec micro ++
          List.replicate (256 - (headerPrefix headerTxtBytes sec micro).length) 0x20) := by
      unfold buildHeader
      rw [if_pos (by rw [hlen]; norm_num)]
    exact ⟨_, hok, by rw [List.length_append, List.length_replicate, hlen]⟩
  · intro txt
    unfold buildHeader
    rw [headerPrefix_length txt sec micro]
    by_cases h : 16 + txt.length ≤ 256
    · rw [if_pos h]
      constructor
      · rintro ⟨e, he⟩
        exact absurd he (by simp)
      · omega
    · rw [if_neg h]
      exact ⟨fun _ => by omega, fun _ => ⟨_, rfl⟩⟩

/-- Witness for `write_header_size`: construction time 0.0. -/
theorem write_header_size_witness :
    ∃ h, buildHeader headerTxtBytes 0 0 = Except.ok h ∧ h.length = 256 :=
  (write_header_size 0 0 (by norm_num) (by norm_num)).1

/-! ## Bulk capture (`StmEncReader.get_write`, C4 and C9)

The TCP source is modelled by a flat pending byte stream and a schedule: the
`i`-th `recv(recv_num)` call returns the next `min (sched i) recv_num` pending
bytes (at most the requested count, and possibly fewer when the stream has
fewer).  The loop is

```
rest = 15*data_num
while rest > 0:
    recv_num = RECV_BUFLEN if (rest > RECV_BUFLEN) else rest
    data = self._client.recv(recv_num)
    file_desc.write(data)
    rest = rest - len(data)
```
-/

/-- The `while rest > 0` read/write loop of `get_write`; returns the bytes
written when the loop reaches `rest = 0` before the schedule runs out, `none`
otherwise (the real loop would block forever on an idle peer). -/
def getWriteLoop : Nat → List Nat → List Nat → Option (List Nat)
  | rest, _, [] => if rest = 0 then some [] else none
  | rest, stream, s :: sched =>
    if rest = 0 then some []
    else
      let recvNum := if rest > RECV_BUFLEN then RECV_BUFLEN else rest
      let data := stream.take (min s recvNum)
      (getWriteLoop (rest - data.length) (stream.drop data.length) sched).map
        (fun w => data ++ w)

/-- The reader fields that `get_write` could touch: the connection flag and
the decoder/carry-over state of `fill`. -/
structure Reader where
  connected : Bool
  ts_latest : Nat
  state_latest : Nat
  carry_over : List Nat
  deriving DecidableEq

/-- `get_write`: raises `Not connected.` before anything else when the source
is not established; otherwise writes the header, reopens the path and streams
`15 * data_num` bytes through `getWriteLoop`.  The reader fields are returned
unchanged, as in the source, which never mentions them here. -/
def get_write (rd : Reader) (data_num : Nat) (stream sched : List Nat) :
    Except String (Reader × Option (List Nat)) :=
  if rd.connected = false then Except.error "Not connected."
  else Except.ok (rd, getWriteLoop (15 * data_num) stream sched)

/-- The on-disk file produced by `get_write` at one path: `_write_header`
leaves the 256-byte header there, but the body loop then reopens the same
path with truncating write mode (`wb`), so the final content restarts from
the empty file and holds only the loop's bytes. -/
def get_write_file (sec micro data_num : Nat) (stream sched : List Nat) :
    Option (List Nat) :=
  match buildHeader headerTxtBytes sec micro with
  | Except.error _ => none
  | Except.ok _hdr =>
    (getWriteLoop (15 * data_num) stream sched).map
      (fun w => ([] : List Nat) ++ w)

lemma getWriteLoop_total (sched : List Nat) : ∀ (rest : Nat) (stream : List Nat),
    (∀ s ∈ sched, 1 ≤ s) → rest ≤ stream.length → rest ≤ sched.length →
    ∃ w, getWriteLoop rest stream sched = some w ∧ w.length = rest := by
  induction sched with
  | nil =>
    intro rest stream _ _ hsched
    simp at hsched
    subst hsched
    exact ⟨[], rfl, rfl⟩
  | cons s sched ih =>
    intro rest stream hs hstream hsched
    by_cases h0 : rest = 0
    · subst h0
      exact ⟨[], by simp [getWriteLoop], rfl⟩
    · have hs1 : 1 ≤ s := hs s (List.mem_cons_self s sched)
      have hrest : 1 ≤ rest := Nat.one_le_iff_ne_zero.mpr h0
      have hrecv : 1 ≤ (if rest > RECV_BUFLEN then RECV_BUFLEN else rest) := by
        by_cases hb : rest > RECV_BUFLEN
        · rw [if_pos hb]; decide
        · rw [if_neg hb]; exact hrest
      have hrecv' : (if rest > RECV_BUFLEN then RECV_BUFLEN else rest) ≤ rest := by
        by_cases hb : rest > RECV_BUFLEN
        · rw [if_pos hb]; omega
        · rw [if_neg hb]
      set recvNum := if rest > RECV_BUFLEN then RECV_BUFLEN else rest with hrN
      have hdlen : (stream.take (min s recvNum)).length = min (min s recvNum) stream.length :=
        List.length_take _ _
      have hd1 : 1 ≤ (stream.take (min s recvNum)).length := by
        rw [hdlen]
        have : 1 ≤ stream.length := le_trans hrest hstream
        omega
      have hdle : (stream.take (min s recvNum)).length ≤ rest := by
        rw [hdlen]
        omega
      obtain ⟨w, hw, hwlen⟩ := ih (rest - (stream.take (min s recvNum)).length)
        (stream.drop (stream.take (min s recvNum)).length)
        (fun x hx => hs x (List.mem_cons_of_mem s hx))
        (by rw [List.length_drop]; omega)
        (by simp at hsched; omega)
      refine ⟨stream.take (min s recvNum) ++ w, ?_, ?_⟩
      · show getWriteLoop rest stream (s :: sched) = _
        rw [getWriteLoop, if_neg h0]
        show Option.map (fun w => stream.take (min s recvNum) ++ w)
          (getWriteLoop (rest - (stream.take (min s recvNum)).length)
            (stream.drop (stream.take (min s recvNum)).length) sched) = _
        rw [hw]
        rfl
      · rw [List.length_append, hwlen]
        omega

/-- C9: Bulk-capture error contract of `get_write`: it fails with
`Not connected.` exactly when invoked before the byte-stream source is
established (returning before touching anything else); when connected, if
every read delivers at least one byte and the stream and schedule last long
enough, the loop completes, transfers exactly `15 * data_num` bytes, and the
decoder state (`ts_latest`, `state_latest`) and carry-over buffer of the
reader are unchanged. -/
theorem get_write_contract (rd : Reader) (data_num : Nat) (stream sched : List Nat) :
    (rd.connected = false → get_write rd data_num stream sched = Except.error "Not connected.") ∧
    (rd.connected = true →
      (∀ s ∈ sched, 1 ≤ s) → 15 * data_num ≤ stream.length → 15 * data_num ≤ sched.length →
      ∃ w, get_write rd data_num stream sched = Except.ok (rd, some w) ∧
        w.length = 15 * data_num) := by
  constructor
  · intro h
    unfold get_write
    rw [if_pos h]
  · intro hconn hs hstream hsched
    obtain ⟨w, hw, hwlen⟩ := getWriteLoop_total sched (15 * data_num) stream hs hstream hsched
    refine ⟨w, ?_, hwlen⟩
    unfold get_write
    rw [if_neg (by simp [hconn]), hw]

/-- Witness for `get_write_contract`: a disconnected reader fails, and a
connected reader transferring one record over fifteen 1-byte reads writes
exactly 15 bytes with its decoder state untouched. -/
theorem get_write_contract_witness :
    (get_write ⟨false, 3, 4, [5]⟩ 1 (List.replicate 15 7) (List.replicate 15 1) =
      Except.error "Not connected.") ∧
    (∃ w, get_write ⟨true, 3, 4, [5]⟩ 1 (List.replicate 15 7) (List.replicate 15 1) =
      Except.ok (⟨true, 3, 4, [5]⟩, some w) ∧ w.length = 15 * 1) :=
  ⟨(get_write_contract ⟨false, 3, 4, [5]⟩ 1 (List.replicate 15 7) (List.replicate 15 1)).1 rfl,
   (get_write_contract ⟨true, 3, 4, [5]⟩ 1 (List.replicate 15 7) (List.replicate 15 1)).2 rfl
     (by decide) (by decide) (by decide)⟩

/-- The header `_write_header` composes at construction time 0.0. -/
def exampleHeader : List Nat :=
  match buildHeader headerTxtBytes 0 0 with
  | Except.ok h => h
  | Except.error _ => []

set_option maxRecDepth 40000 in
/-- C4: The output-file layout claim fails on the code for bulk capture.
Capturing one record (15 bytes, delivered in one read) at construction time
0.0 produces a file holding exactly the 15 record bytes: the 256-byte header
written by `_write_header` is destroyed when `get_write` reopens the same
path with truncating write mode, so the file does not start with the header. -/
theorem get_write_file_header_truncated :
    get_write_file 0 0 1 tsOnePacket [15] = some tsOnePacket ∧
    exampleHeader.length = 256 ∧
    ((get_write_file 0 0 1 tsOnePacket [15]).getD []).length = 15 ∧
    ((get_write_file 0 0 1 tsOnePacket [15]).getD []).take 256 ≠ exampleHeader := by
  refine ⟨?_, ?_, ?_, ?_⟩ <;> decide

/-! ## Rotating capture (the file handling of `StmEncReader.fill`, C7 and C10)

```
if self._current_path is None:
    self._current_path = path_creator(self._path_base)
    self._write_header(self._current_path)
    self._res = self._file_len*15
recv_num = RECV_BUFLEN if (self._res > RECV_BUFLEN) else self._res
data = self._client.recv(recv_num)
self._res -= len(data)
with open(self._current_path, 'ab') as file_desc:
    file_desc.write(data)
if self._res <= 0:
    self._current_path = None
```

The files on disk are modelled by the bodies written after each 256-byte
header: `closedFiles` holds the bodies of the files whose path was cleared,
`current` the body of the active file (its header was written when the file
was opened; `path_creator` guarantees distinct paths).  `res` is kept as an
integer because the source decrements it with plain subtraction. -/

/-- The file state owned by the rotation logic of `fill`. -/
structure FillState where
  closedFiles : List (List Nat)
  current : Option (List Nat)
  res : Int
  deriving DecidableEq

/-- The `__init__` values: no active path, `_res = file_len*15`, no files. -/
def initFill (file_len : Nat) : FillState :=
  ⟨[], none, (file_len * 15 : Nat)⟩

/-- The body of the active file (empty right after the header is written). -/
def currentBody (st : FillState) : List Nat :=
  match st.current with
  | none => []
  | some b => b

/-- The value of `self._res` once the initialization branch of the call has
run: reset to `file_len*15` when no path was active. -/
def resInit (file_len : Nat) (st : FillState) : Int :=
  match st.current with
  | none => (file_len * 15 : Nat)
  | some _ => st.res

/-- `recv_num = RECV_BUFLEN if (self._res > RECV_BUFLEN) else self._res`,
evaluated after the initialization branch. -/
def recvReq (file_len : Nat) (st : FillState) : Nat :=
  if resInit file_len st > (RECV_BUFLEN : Int) then RECV_BUFLEN
  else (resInit file_len st).toNat

/-- One `fill` call on the file state, given the bytes `data` that
`recv(recv_num)` returned: open a file if none is active, append `data`,
decrement `_res`, and clear the path when `_res <= 0`. -/
def fillStep (file_len : Nat) (st : FillState) (data : List Nat) : FillState :=
  if resInit file_len st - (data.length : Int) ≤ 0 then
    ⟨st.closedFiles ++ [currentBody st ++ data], none,
      resInit file_len st - (data.length : Int)⟩
  else
    ⟨st.closedFiles, some (currentBody st ++ data),
      resInit file_len st - (data.length : Int)⟩

/-- Successive `fill` calls on the chunks the network delivered. -/
def runFill (file_len : Nat) (st : FillState) (chunks : List (List Nat)) : FillState :=
  chunks.foldl (fillStep file_len) st

/-- The bodies of all files created so far, oldest first. -/
def allBodies (st : FillState) : List (List Nat) :=
  st.closedFiles ++ (match st.current with | none => [] | some b => [b])

/-- A schedule of network deliveries is valid when each chunk is nonempty
(the peer is alive) and never longer than the `recv_num` requested at that
call (TCP `recv` returns at most the requested count). -/
def validRun (file_len : Nat) : FillState → List (List Nat) → Bool
  | _, [] => true
  | st, c :: cs =>
    (1 ≤ c.length && c.length ≤ recvReq file_len st) &&
      validRun file_len (fillStep file_len st c) cs

/-- Like `validRun` but allowing empty deliveries. -/
def validRunW (file_len : Nat) : FillState → List (List Nat) → Bool
  | _, [] => true
  | st, c :: cs =>
    (c.length ≤ recvReq file_len st) && validRunW file_len (fillStep file_len st c) cs

/-- Total byte count of a list of byte strings. -/
def sumLens (chunks : List (List Nat)) : Nat := (chunks.map List.length).sum

/-- All bytes written to disk bodies so far. -/
def totalBytes (st : FillState) : Nat := sumLens (allBodies st)

/-- The invariant of the rotation state: `_res` is never negative, every
closed file body is exactly `file_len*15` bytes, and an active file has
`body length + _res = file_len*15` with `_res` still positive. -/
def FillInv (F : Nat) (st : FillState) : Prop :=
  0 ≤ st.res ∧
  (∀ b ∈ st.closedFiles, b.length = F * 15) ∧
  (∀ b, st.current = some b → (b.length : Int) + st.res = ((F * 15 : Nat) : Int) ∧ 0 < st.res)

lemma resInit_nonneg (F : Nat) (st : FillState) (h : FillInv F st) :
    0 ≤ resInit F st := by
  unfold resInit
  cases hc : st.current with
  | none => positivity
  | some b => exact le_of_lt (h.2.2 b hc).2

lemma chunk_le_resInit (F : Nat) (st : FillState) (c : List Nat) (h : FillInv F st)
    (hc : c.length ≤ recvReq F st) : (c.length : Int) ≤ resInit F st := by
  have h0 := resInit_nonneg F st h
  unfold recvReq at hc
  by_cases hb : resInit F st > (RECV_BUFLEN : Int)
  · rw [if_pos hb] at hc
    calc (c.length : Int) ≤ ((RECV_BUFLEN : Nat) : Int) := by exact_mod_cast hc
    _ ≤ resInit F st := le_of_lt hb
  · rw [if_neg hb] at hc
    calc (c.length : Int) ≤ ((resInit F st).toNat : Int) := by exact_mod_cast hc
    _ = resInit F st := Int.toNat_of_nonneg h0

lemma currentBody_res (F : Nat) (st : FillState) (h : FillInv F st) :
    ((currentBody st).length : Int) + resInit F st = ((F * 15 : Nat) : Int) := by
  unfold currentBody resInit
  cases hc : st.current with
  | none => simp
  | some b => exact (h.2.2 b hc).1

lemma fillInv_step (F : Nat) (st : FillState) (c : List Nat) (h : FillInv F st)
    (hc : c.length ≤ recvReq F st) : FillInv F (fillStep F st c) := by
  have hle := chunk_le_resInit F st c h hc
  have hbody := currentBody_res F st h
  unfold fillStep
  by_cases hz : resInit F st - (c.length : Int) ≤ 0
  · rw [if_pos hz]
    refine ⟨by show (0 : Int) ≤ resInit F st - (c.length : Int); omega, ?_, ?_⟩
    · intro b hb
      rcases List.mem_append.mp hb with hb | hb
      · exact h.2.1 b hb
      · rw [List.mem_singleton.mp hb]
        have : ((currentBody st ++ c).length : Int) = ((F * 15 : Nat) : Int) := by
          rw [List.length_append]
          push_cast
          push_cast at hbody
          omega
        exact_mod_cast this
    · intro b hb
      exact absurd hb (by simp)
  · rw [if_neg hz]
    refine ⟨by show (0 : Int) ≤ resInit F st - (c.length : Int); omega, h.2.1, ?_⟩
    intro b hb
    rw [Option.some_inj.mp hb.symm]
    constructor
    · show ((currentBody st ++ c).length : Int) + (resInit F st - (c.length : Int)) = _
      rw [List.length_append]
      push_cast
      push_cast at hbody
      omega
    · show (0 : Int) < resInit F st - (c.length : Int)
      omega

lemma activeNE_step (F : Nat) (st : FillState) (c : List Nat) (h1 : 1 ≤ c.length) :
    ∀ b, (fillStep F st c).current = some b → 0 < b.length := by
  intro b hb
  unfold fillStep at hb
  by_cases hz : resInit F st - (c.length : Int) ≤ 0
  · rw [if_pos hz] at hb
    exact absurd hb (by simp)
  · rw [if_neg hz] at hb
    simp only at hb
    rw [Option.some_inj.mp hb.symm, List.length_append]
    omega

lemma totalBytes_step (F : Nat) (st : FillState) (c : List Nat) :
    totalBytes (fillStep F st c) = totalBytes st + c.length := by
  unfold totalBytes allBodies fillStep currentBody sumLens
  by_cases hz : resInit F st - (c.length : Int) ≤ 0 <;>
    [rw [if_pos hz]; rw [if_neg hz]] <;>
    cases st.current <;> simp <;> omega

lemma fillInv_run (F : Nat) : ∀ (chunks : List (List Nat)) (st : FillState),
    FillInv F st → validRunW F st chunks = true → FillInv F (runFill F st chunks) := by
  intro chunks
  induction chunks with
  | nil => intro st h _; exact h
  | cons c cs ih =>
    intro st h hv
    rw [validRunW] at hv
    rw [Bool.and_eq_true] at hv
    exact ih (fillStep F st c) (fillInv_step F st c h (by exact_mod_cast of_decide_eq_true hv.1)) hv.2

lemma validRun_toW (F : Nat) : ∀ (chunks : List (List Nat)) (st : FillState),
    validRun F st chunks = true → validRunW F st chunks = true := by
  intro chunks
  induction chunks with
  | nil => intro st _; rfl
  | cons c cs ih =>
    intro st hv
    rw [validRun] at hv
    rw [Bool.and_eq_true, Bool.and_eq_true] at hv
    rw [validRunW, Bool.and_eq_true]
    exact ⟨hv.1.2, ih (fillStep F st c) hv.2⟩

lemma activeNE_run (F : Nat) : ∀ (chunks : List (List Nat)) (st : FillState),
    (∀ b, st.current = some b → 0 < b.length) → validRun F st chunks = true →
    ∀ b, (runFill F st chunks).current = some b → 0 < b.length := by
  intro chunks
  induction chunks with
  | nil => intro st h _; exact h
  | cons c cs ih =>
    intro st _ hv
    rw [validRun] at hv
    rw [Bool.and_eq_true, Bool.and_eq_true] at hv
    exact ih (fillStep F st c)
      (activeNE_step F st c (by exact_mod_cast of_decide_eq_true hv.1.1)) hv.2

lemma totalBytes_run (F : Nat) : ∀ (chunks : List (List Nat)) (st : FillState),
    totalBytes (runFill F st chunks) = totalBytes st + sumLens chunks := by
  intro chunks
  induction chunks with
  | nil => intro st; simp [runFill, sumLens]
  | cons c cs ih =>
    intro st
    show totalBytes (runFill F (fillStep F st c) cs) = _
    rw [ih (fillStep F st c), totalBytes_step]
    simp [sumLens]
    omega

lemma sumLens_const (l : List (List Nat)) (n : Nat) (h : ∀ b ∈ l, b.length = n) :
    sumLens l = l.length * n := by
  induction l with
  | nil => simp [sumLens]
  | cons b bs ih =>
    have hb := h b (List.mem_cons_self b bs)
    have := ih (fun x hx => h x (List.mem_cons_of_mem b hx))
    simp [sumLens] at this ⊢
    rw [hb, this]
    ring

lemma sumLens_append (l1 l2 : List (List Nat)) :
    sumLens (l1 ++ l2) = sumLens l1 + sumLens l2 := by
  simp [sumLens]

lemma fillInv_init (F : Nat) : FillInv F (initFill F) := by
  refine ⟨?_, ?_, ?_⟩
  · show (0 : Int) ≤ ((F * 15 : Nat) : Int)
    positivity
  · intro b hb
    exact absurd hb (List.not_mem_nil b)
  · intro b hb
    exact absurd hb (by simp [initFill])

lemma totalBytes_init (F : Nat) : totalBytes (initFill F) = 0 := by
  simp [totalBytes, allBodies, initFill, sumLens]

lemma files_of_total (F k : Nat) (hF : 1 ≤ F) (st : FillState)
    (hInv : FillInv F st) (hNE : ∀ b, st.current = some b → 0 < b.length)
    (htot : totalBytes st = k * (F * 15)) :
    st.current = none ∧ (allBodies st).length = k ∧
      ∀ b ∈ allBodies st, b.length = F * 15 := by
  have hclosed := sumLens_const st.closedFiles (F * 15) hInv.2.1
  cases hc : st.current with
  | none =>
    have hall : allBodies st = st.closedFiles := by simp [allBodies, hc]
    have htot' : st.closedFiles.length * (F * 15) = k * (F * 15) := by
      rw [← hclosed, ← htot]
      simp [totalBytes, hall]
    have hpos : 0 < F * 15 := by positivity
    have hk : st.closedFiles.length = k := Nat.eq_of_mul_eq_mul_right hpos htot'
    exact ⟨rfl, by rw [hall, hk], by rw [hall]; exact hInv.2.1⟩
  | some b =>
    exfalso
    have hbpos := hNE b hc
    have hrel := hInv.2.2 b hc
    have hblt : b.length < F * 15 := by
      have h1 := hrel.1
      have h2 := hrel.2
      have : (b.length : Int) < ((F * 15 : Nat) : Int) := by omega
      exact_mod_cast this
    have hsplit : totalBytes st = sumLens st.closedFiles + b.length := by
      simp [totalBytes, allBodies, hc, sumLens_append]
      simp [sumLens]
    have htot' : st.closedFiles.length * (F * 15) + b.length = k * (F * 15) := by
      rw [← hclosed, ← hsplit]
      exact htot
    rcases Nat.lt_or_ge st.closedFiles.length k with hlt | hge
    · have hm1 : (st.closedFiles.length + 1) * (F * 15) ≤ k * (F * 15) :=
        Nat.mul_le_mul_right _ hlt
      rw [Nat.succ_mul] at hm1
      have h2 := le_trans hm1 (le_of_eq htot'.symm)
      have := Nat.le_of_add_le_add_left h2
      omega
    · have h1 : k * (F * 15) ≤ st.closedFiles.length * (F * 15) :=
        Nat.mul_le_mul_right _ hge
      have h2 : st.closedFiles.length * (F * 15) + b.length ≤
          st.closedFiles.length * (F * 15) + 0 := by
        calc st.closedFiles.length * (F * 15) + b.length = k * (F * 15) := htot'
        _ ≤ st.closedFiles.length * (F * 15) := h1
        _ = st.closedFiles.length * (F * 15) + 0 := by ring
      have := Nat.le_of_add_le_add_left h2
      omega

lemma files_of_overflow (F : Nat) (hF : 1 ≤ F) (st : FillState)
    (hInv : FillInv F st) (hNE : ∀ b, st.current = some b → 0 < b.length)
    (htot : totalBytes st = F * 15 + 15) :
    (allBodies st).length = 2 ∧ ((allBodies st).getD 0 []).length = F * 15 ∧
      ((allBodies st).getD 1 []).length = 15 := by
  have hclosed := sumLens_const st.closedFiles (F * 15) hInv.2.1
  have h15 : 15 ≤ F * 15 := by
    calc 15 = 1 * 15 := by ring
    _ ≤ F * 15 := Nat.mul_le_mul_right _ hF
  obtain ⟨m, hm⟩ : ∃ m, st.closedFiles.length = m := ⟨_, rfl⟩
  cases hc : st.current with
  | none =>
    have hall : allBodies st = st.closedFiles := by simp [allBodies, hc]
    have heq : m * (F * 15) = F * 15 + 15 := by
      rw [← hm, ← hclosed, ← htot]
      simp [totalBytes, hall]
    have key : m = 2 ∧ F * 15 = 15 := by
      rcases m with _ | _ | _ | m
      · rw [Nat.zero_mul] at heq
        omega
      · rw [Nat.one_mul] at heq
        omega
      · constructor
        · rfl
        · have : 2 * (F * 15) = F * 15 + 15 := heq
          omega
      · exfalso
        have h3 : 3 * (F * 15) ≤ (m + 3) * (F * 15) :=
          Nat.mul_le_mul_right _ (by omega)
        obtain ⟨A, hA⟩ : ∃ A, (m + 3) * (F * 15) = A := ⟨_, rfl⟩
        rw [hA] at heq h3
        omega
    obtain ⟨x, y, hxy⟩ := List.length_eq_two.mp
      (show st.closedFiles.length = 2 by rw [hm, key.1])
    have hx : x.length = F * 15 := hInv.2.1 x (by rw [hxy]; simp)
    have hy : y.length = F * 15 := hInv.2.1 y (by rw [hxy]; simp)
    rw [hall, hxy]
    exact ⟨rfl, hx, by show y.length = 15; rw [hy, key.2]⟩
  | some b =>
    have hbpos := hNE b hc
    have hrel := hInv.2.2 b hc
    have hblt : b.length < F * 15 := by
      have h1 := hrel.1
      have h2 := hrel.2
      have : (b.length : Int) < ((F * 15 : Nat) : Int) := by omega
      exact_mod_cast this
    have hall : allBodies st = st.closedFiles ++ [b] := by simp [allBodies, hc]
    have heq : m * (F * 15) + b.length = F * 15 + 15 := by
      rw [← hm, ← hclosed, ← htot]
      simp [totalBytes, hall, sumLens_append]
      simp [sumLens]
    have key : m = 1 ∧ b.length = 15 := by
      rcases m with _ | _ | _ | m
      · rw [Nat.zero_mul] at heq
        omega
      · rw [Nat.one_mul] at heq
        omega
      · exfalso
        have : 2 * (F * 15) + b.length = F * 15 + 15 := heq
        omega
      · exfalso
        have h3 : 3 * (F * 15) ≤ (m + 3) * (F * 15) :=
          Nat.mul_le_mul_right _ (by omega)
        obtain ⟨A, hA⟩ : ∃ A, (m + 3) * (F * 15) = A := ⟨_, rfl⟩
        rw [hA] at heq h3
        omega
    obtain ⟨x, hx⟩ := List.length_eq_one.mp
      (show st.closedFiles.length = 1 by rw [hm, key.1])
    have hxlen : x.length = F * 15 := hInv.2.1 x (by rw [hx]; simp)
    rw [hall, hx]
    exact ⟨rfl, hxlen, key.2⟩

/-- C7: Rotation boundary of the rotating capture.  (i) After a chunk is
appended, the session is cleared exactly when the remaining capacity has
dropped to `≤ 0`; (ii) for any valid delivery schedule (nonempty chunks, each
within the requested `recv_num`) totalling exactly `k × file_len` records, the
capture ends with no active session and exactly `k` files, each holding
exactly `file_len * 15` body bytes after its header; (iii) for a capture of
`file_len + 1` records, a second file has been started (its header written)
holding the 15 bytes that exceed the first file's capacity. -/
theorem fill_rotation (F k : Nat) (chunks : List (List Nat)) (hF : 1 ≤ F)
    (hv : validRun F (initFill F) chunks = true) :
    (∀ (st : FillState) (c : List Nat),
      ((fillStep F st c).current = none ↔ resInit F st - (c.length : Int) ≤ 0)) ∧
    (sumLens chunks = k * (F * 15) →
      (runFill F (initFill F) chunks).current = none ∧
      (allBodies (runFill F (initFill F) chunks)).length = k ∧
      ∀ b ∈ allBodies (runFill F (initFill F) chunks), b.length = F * 15) ∧
    (sumLens chunks = F * 15 + 15 →
      (allBodies (runFill F (initFill F) chunks)).length = 2 ∧
      ((allBodies (runFill F (initFill F) chunks)).getD 0 []).length = F * 15 ∧
      ((allBodies (runFill F (initFill F) chunks)).getD 1 []).length = 15) := by
  have hInv := fillInv_run F chunks (initFill F) (fillInv_init F)
    (validRun_toW F chunks (initFill F) hv)
  have hNE := activeNE_run F chunks (initFill F)
    (by intro b hb; exact absurd hb (by simp [initFill])) hv
  have htotal : totalBytes (runFill F (initFill F) chunks) = sumLens chunks := by
    rw [totalBytes_run, totalBytes_init]
    omega
  refine ⟨?_, ?_, ?_⟩
  · intro st c
    unfold fillStep
    by_cases hz : resInit F st - (c.length : Int) ≤ 0
    · rw [if_pos hz]
      simpa using hz
    · rw [if_neg hz]
      simpa using hz
  · intro htot
    exact files_of_total F k hF _ hInv hNE (by rw [htotal]; exact htot)
  · intro htot
    exact files_of_overflow F hF _ hInv hNE (by rw [htotal]; exact htot)

/-- Witness for `fill_rotation`: `file_len = 1`, one 15-byte delivery: one
file, closed, holding exactly 15 body bytes. -/
theorem fill_rotation_witness :
    (runFill 1 (initFill 1) [List.replicate 15 0]).current = none ∧
    (allBodies (runFill 1 (initFill 1) [List.replicate 15 0])).length = 1 ∧
    ∀ b ∈ allBodies (runFill 1 (initFill 1) [List.replicate 15 0]), b.length = 1 * 15 :=
  (fill_rotation 1 1 [List.replicate 15 0] (by decide) (by decide)).2.1 (by decide)

/-- C10: Implicit capacity invariant of the rotating capture: the requested
receive size equals `min(remaining capacity, RECV_BUFLEN)`; consequently,
along any schedule in which each delivery fits the request, the remaining
capacity counter `_res` never becomes negative and no file body ever exceeds
`file_len * 15` bytes. -/
theorem fill_capacity (F : Nat) (chunks : List (List Nat))
    (hv : validRunW F (initFill F) chunks = true) :
    (∀ st : FillState, 0 ≤ resInit F st →
      (recvReq F st : Int) = min (resInit F st) ((RECV_BUFLEN : Nat) : Int)) ∧
    0 ≤ (runFill F (initFill F) chunks).res ∧
    ∀ b ∈ allBodies (runFill F (initFill F) chunks), b.length ≤ F * 15 := by
  have hInv := fillInv_run F chunks (initFill F) (fillInv_init F) hv
  refine ⟨?_, hInv.1, ?_⟩
  · intro st h
    unfold recvReq
    by_cases hb : resInit F st > (RECV_BUFLEN : Int)
    · rw [if_pos hb]
      rw [min_eq_right (le_of_lt hb)]
    · rw [if_neg hb]
      rw [Int.toNat_of_nonneg h, min_eq_left (not_lt.mp hb)]
  · intro b hb
    rw [allBodies] at hb
    rcases List.mem_append.mp hb with hb | hb
    · exact le_of_eq (hInv.2.1 b hb)
    · cases hc : (runFill F (initFill F) chunks).current with
      | none =>
        rw [hc] at hb
        exact absurd hb (List.not_mem_nil b)
      | some b' =>
        rw [hc] at hb
        rw [List.mem_singleton.mp hb]
        have hrel := hInv.2.2 b' hc
        have h1 := hrel.1
        have h2 := hrel.2
        have : (b'.length : Int) ≤ ((F * 15 : Nat) : Int) := by omega
        exact_mod_cast this

/-- Witness for `fill_capacity`: `file_len = 1`, a single 7-byte delivery:
the remaining capacity stays nonnegative and the partial body stays within
15 bytes. -/
theorem fill_capacity_witness :
    0 ≤ (runFill 1 (initFill 1) [List.replicate 7 0]).res ∧
    ∀ b ∈ allBodies (runFill 1 (initFill 1) [List.replicate 7 0]), b.length ≤ 1 * 15 :=
  ⟨(fill_capacity 1 [List.replicate 7 0] (by decide)).2.1,
   (fill_capacity 1 [List.replicate 7 0] (by decide)).2.2⟩

end StmEnc
